import Mathlib

set_option maxRecDepth 100000

namespace AgentSecrets

/-!
Verification development for the AgentSecrets key-hierarchy engine
(`pkg/crypto`, `pkg/auth`, `pkg/config`, `pkg/keyring`).

Byte strings are modelled as `List Nat`.  The repository's own functions
(`DeriveKeyFromPassword`, `EncryptPrivateKey`, `DecryptPrivateKey`,
`EncryptSecret`, `DecryptSecret`, `EncryptForUser`, `DecryptFromUser`,
`PerformLogin`, `Logout`, ...) are translated statement by statement from
the Go source.  The external cryptographic library primitives
(Argon2id, AES-256-GCM, NaCl sealed boxes, `encoding/base64`) are not part
of the repository; they are replaced by idealized, executable models that
satisfy the functional guarantees the library documents (deterministic
round-trips, authentication that binds key and nonce).  To make the ideal
authentication properties provable, the models embed an injective encoding
of the key material in the authentication tag; list elements of such model
values are unbounded naturals rather than bytes, which no repository-level
code inspects.
-/

/-! ## Definitions -/

/-! ### Injective digit-stream encodings (model plumbing)

`encNat` writes one natural in little-endian binary, `encodeList` joins the
digit strings of a list with the separator digit `2`, and `toNum` packs a
digit stream (digits `< 3`) into a single natural in base 4 with offset
digits.  Each stage has a computable inverse, so the composites are
injective; they give the idealized primitives their "perfect" tags. -/

def encNatAux : Nat → Nat → List Nat
  | _, 0 => []
  | 0, _ + 1 => []
  | fuel + 1, n + 1 => ((n + 1) % 2) :: encNatAux fuel ((n + 1) / 2)

/-- Binary digits of a natural, little-endian (fuel-bounded structural
recursion so that concrete instances evaluate inside the kernel). -/
def encNat (n : Nat) : List Nat :=
  encNatAux n n

def decNat (ds : List Nat) : Nat :=
  ds.foldr (fun d acc => d + 2 * acc) 0

def encodeList (l : List Nat) : List Nat :=
  l.foldr (fun x acc => encNat x ++ 2 :: acc) []

/-- Split a digit stream at the first separator digit `2`; fails when no
separator is reachable through digits `< 2`. -/
def splitSep : List Nat → Option (List Nat × List Nat)
  | [] => none
  | d :: rest =>
    if d = 2 then some ([], rest)
    else if d < 2 then
      match splitSep rest with
      | none => none
      | some (a, b) => some (d :: a, b)
    else none

def decodeListAux : Nat → List Nat → Option (List Nat)
  | _, [] => some []
  | 0, _ :: _ => none
  | fuel + 1, d :: rest =>
    match splitSep (d :: rest) with
    | none => none
    | some (a, b) =>
      match decodeListAux fuel b with
      | none => none
      | some xs => some (decNat a :: xs)

def decodeList (l : List Nat) : Option (List Nat) :=
  decodeListAux l.length l

/-- Pack a digit stream into one natural, base 4 with digits shifted by 1. -/
def toNum (ds : List Nat) : Nat :=
  ds.foldr (fun d acc => (d + 1) + 4 * acc) 0

def fromNumAux : Nat → Nat → List Nat
  | _, 0 => []
  | 0, _ + 1 => []
  | fuel + 1, n + 1 => ((n + 1) % 4 - 1) :: fromNumAux fuel ((n + 1) / 4)

/-- Inverse of `toNum` (fuel-bounded structural recursion). -/
def fromNum (n : Nat) : List Nat :=
  fromNumAux n n

/-- Injective encoding of a byte string into one natural. -/
def natOfList (bs : List Nat) : Nat :=
  toNum (encodeList bs)

/-- Injective encoding of a string into one natural (via its scalar values). -/
def natOfString (s : String) : Nat :=
  natOfList (s.data.map Char.toNat)

/-! ### Hexadecimal codec

Faithful model of Go `encoding/hex`: `DecodeString` rejects any character
outside `0-9a-fA-F` and any odd-length input; `EncodeToString` writes two
lowercase digits per byte. -/

def fromHexChar (c : Char) : Option Nat :=
  if ('0' ≤ c ∧ c ≤ '9') then some (c.toNat - 48)
  else if ('a' ≤ c ∧ c ≤ 'f') then some (c.toNat - 97 + 10)
  else if ('A' ≤ c ∧ c ≤ 'F') then some (c.toNat - 65 + 10)
  else none

def hexDecodeChars : List Char → Option (List Nat)
  | [] => some []
  | [_] => none
  | c1 :: c2 :: rest =>
    match fromHexChar c1, fromHexChar c2, hexDecodeChars rest with
    | some hi, some lo, some bs => some ((16 * hi + lo) :: bs)
    | _, _, _ => none

/-- Model of Go `hex.DecodeString`. -/
def hexDecode (s : String) : Option (List Nat) :=
  hexDecodeChars s.data

def hexDigitChar (n : Nat) : Char :=
  if n < 10 then Char.ofNat (48 + n) else Char.ofNat (87 + n)

def hexEncodeChars : List Nat → List Char
  | [] => []
  | b :: tl => hexDigitChar (b / 16) :: hexDigitChar (b % 16) :: hexEncodeChars tl

/-- Model of Go `hex.EncodeToString` (lowercase digits). -/
def hexEncode (bs : List Nat) : String :=
  String.mk (hexEncodeChars bs)

/-! ### Base64 codec (model)

Go `encoding/base64.StdEncoding` is external library code.  It is modelled
as an injective string encoding of byte strings with a computable partial
inverse: encoding writes the digit stream of `encodeList` using the letters
`A`, `B`, `C`; decoding rejects any other character and any stream that is
not a valid digit stream.  The model keeps the two properties the code
relies on: decode is a left inverse of encode, and some strings fail to
decode. -/

def b64DigitChar (d : Nat) : Char :=
  if d = 0 then 'A' else if d = 1 then 'B' else 'C'

def b64CharDigit (c : Char) : Option Nat :=
  if c = 'A' then some 0 else if c = 'B' then some 1
  else if c = 'C' then some 2 else none

/-- Model of Go `base64.StdEncoding.EncodeToString`. -/
def b64Encode (bs : List Nat) : String :=
  String.mk ((encodeList bs).map b64DigitChar)

/-- Option-valued traversal used by the base64 decode model. -/
def mapOpt {α β : Type} (f : α → Option β) : List α → Option (List β)
  | [] => some []
  | a :: l =>
    match f a, mapOpt f l with
    | some b, some bs => some (b :: bs)
    | _, _ => none

/-- Model of Go `base64.StdEncoding.DecodeString`. -/
def b64Decode (s : String) : Option (List Nat) :=
  match mapOpt b64CharDigit s.data with
  | none => none
  | some ds => decodeList ds

/-! ### Idealized cryptographic primitives

These model the external library functions `argon2.IDKey`,
AES-256-GCM (`crypto/aes` + `cipher.NewGCM`) and NaCl sealed boxes
(`golang.org/x/crypto/nacl/box`).  The models are ideal: the GCM
authentication tag binds the exact key and nonce (via the injective
`natOfList` encoding), so tag verification succeeds precisely for the
sealing key and nonce — the functional guarantee the real AEAD provides
computationally. -/

/-- Length of an AES-GCM authentication tag in bytes. -/
def gcmTagLen : Nat := 16

/-- Nonce size used by `cipher.NewGCM` for AES (12 bytes). -/
def NonceSize : Nat := 12

/-- Size of AES-256 and X25519 keys (32 bytes). -/
def KeySize : Nat := 32

/-- Size of the Argon2id salt (32 bytes). -/
def SaltSize : Nat := 32

/-- Go `aes.NewCipher` succeeds exactly for 16-, 24- or 32-byte keys. -/
def aesKeyLenOK (key : List Nat) : Prop :=
  key.length = 16 ∨ key.length = 24 ∨ key.length = 32

instance (key : List Nat) : Decidable (aesKeyLenOK key) := by
  unfold aesKeyLenOK; infer_instance

/-- Idealized model of `argon2.IDKey(password, salt, 3, 64*1024, 4, 32)`:
deterministic, 32-entry output, injective in `(password, salt)`. -/
def argon2IDKey (password : String) (salt : List Nat) : List Nat :=
  natOfString password :: natOfList salt :: List.replicate 30 0

/-- Idealized AES-GCM authentication tag: 16 entries binding key and nonce. -/
def gcmTag (key nonce : List Nat) : List Nat :=
  natOfList key :: natOfList nonce :: List.replicate 14 0

/-- Idealized model of `aesGCM.Seal(nil, nonce, plaintext, nil)`:
the plaintext with the authentication tag appended. -/
def gcmSeal (key nonce plaintext : List Nat) : List Nat :=
  plaintext ++ gcmTag key nonce

/-- Idealized model of `aesGCM.Open(nil, nonce, ciphertext, nil)`: succeeds
exactly when the trailing tag matches the given key and nonce.  Go's
`gcm.Open` panics — it does not return an error — when the nonce is not
12 bytes, so this total function is a faithful model only on 12-byte
nonces; the first branch merely totalizes the argument-contract violation.
Every claim theorem stays on the faithful side: `DecryptPrivateKey` slices
exactly `NonceSize` bytes after its length guard, the round-trip and
wrong-password claims hypothesize a 12-byte nonce, and the failure-catalog
claim restricts to nonce inputs that decode to 12 bytes. -/
def gcmOpen (key nonce ciphertext : List Nat) : Option (List Nat) :=
  if nonce.length ≠ NonceSize then none
  else if ciphertext.length < gcmTagLen then none
  else if ciphertext.drop (ciphertext.length - gcmTagLen) = gcmTag key nonce then
    some (ciphertext.take (ciphertext.length - gcmTagLen))
  else none

/-! Idealized NaCl sealed box (`box.SealAnonymous` / `box.OpenAnonymous`):
sealing to a public key prepends an injective marker of that key; opening
succeeds exactly when the marker matches the public key derived from the
supplied private key. -/

/-- Model of X25519 public-key derivation (injective in the private key). -/
def pubOf (priv : List Nat) : List Nat :=
  natOfList priv :: List.replicate 31 0

/-- Model of `box.SealAnonymous(nil, data, &pubKey, rand.Reader)`. -/
def sealAnonymous (pub data : List Nat) : List Nat :=
  natOfList pub :: data

/-- Model of `box.OpenAnonymous(nil, encrypted, &pubKey, &privKey)`. -/
def openAnonymous (priv pub encrypted : List Nat) : Option (List Nat) :=
  match encrypted with
  | [] => none
  | t :: rest =>
    if pub = pubOf priv ∧ t = natOfList pub then some rest else none

/-! ### String/byte conversions

Go's `[]byte(s)` / `string(bs)` conversions; the model works at Unicode
scalar-value granularity (one list entry per character). -/

def strToBytes (s : String) : List Nat :=
  s.data.map Char.toNat

def bytesToStr (bs : List Nat) : String :=
  String.mk (bs.map Char.ofNat)

/-! ### The repository's crypto package (`pkg/crypto`, src/unnamed/part_007)

Each function is translated statement by statement from the Go source.
`rand.Reader` draws are passed in as explicit arguments (`salt`, `nonce`,
`seed`); everything else is deterministic.  Error values carry the static
prefix of the corresponding `fmt.Errorf` message. -/

def errInvalidSaltHex : String := "invalid salt hex"
def errDecodePrivateKey : String := "failed to decode encrypted private key"
def errCreateCipher : String := "failed to create cipher"
def errCiphertextTooShort : String := "ciphertext too short"
def errDecryptPrivateKey : String := "failed to decrypt private key (wrong password?)"
def errDecodeCiphertext : String := "failed to decode ciphertext"
def errDecodeNonce : String := "failed to decode nonce"
def errDecrypt : String := "failed to decrypt"
def errInvalidPublicKeySize : String := "invalid public key size"
def errInvalidKeySize : String := "invalid key size"
def errAuthFailed : String := "failed to decrypt: authentication failed"

/-- Translation of `DeriveKeyFromPassword` (part_007, lines 82-89). -/
def DeriveKeyFromPassword (password saltHex : String) : Except String (List Nat) :=
  match hexDecode saltHex with
  | none => .error errInvalidSaltHex
  | some salt => .ok (argon2IDKey password salt)

/-- Translation of `EncryptPrivateKey` (part_007, lines 93-125); `salt` and
`nonce` are the bytes drawn from `rand.Reader`.  The nonce is prepended to
the GCM output, and the pair `(base64 ciphertext, hex salt)` is returned. -/
def EncryptPrivateKey (privateKey : List Nat) (password : String)
    (salt nonce : List Nat) : Except String (String × String) :=
  let saltHex := hexEncode salt
  match DeriveKeyFromPassword password saltHex with
  | .error e => .error e
  | .ok derivedKey =>
    if aesKeyLenOK derivedKey then
      .ok (b64Encode (nonce ++ gcmSeal derivedKey nonce privateKey), saltHex)
    else .error errCreateCipher

/-- Translation of `DecryptPrivateKey` (part_007, lines 129-163). -/
def DecryptPrivateKey (encryptedB64 password saltHex : String) : Except String (List Nat) :=
  match b64Decode encryptedB64 with
  | none => .error errDecodePrivateKey
  | some ciphertext =>
    match DeriveKeyFromPassword password saltHex with
    | .error e => .error e
    | .ok derivedKey =>
      if aesKeyLenOK derivedKey then
        if ciphertext.length < NonceSize then .error errCiphertextTooShort
        else
          match gcmOpen derivedKey (ciphertext.take NonceSize) (ciphertext.drop NonceSize) with
          | none => .error errDecryptPrivateKey
          | some privateKey => .ok privateKey
      else .error errCreateCipher

/-- Translation of `GenerateKeypair` (part_007, lines 167-173); `seed` is the
randomness consumed by `box.GenerateKey`.  Returns `(privateKey, publicKey)`. -/
def GenerateKeypair (seed : List Nat) : List Nat × List Nat :=
  (seed, pubOf seed)

/-- Translation of `EncryptSecret` (part_007, lines 186-209); `nonce` is the
random nonce drawn from `rand.Reader`.  Returns base64 ciphertext and nonce. -/
def EncryptSecret (plaintext : String) (workspaceKey nonce : List Nat) :
    Except String (String × String) :=
  if aesKeyLenOK workspaceKey then
    .ok (b64Encode (gcmSeal workspaceKey nonce (strToBytes plaintext)), b64Encode nonce)
  else .error errCreateCipher

/-- Translation of `DecryptSecret` (part_007, lines 212-239). -/
def DecryptSecret (ciphertextB64 nonceB64 : String) (workspaceKey : List Nat) :
    Except String String :=
  match b64Decode ciphertextB64 with
  | none => .error errDecodeCiphertext
  | some ciphertext =>
    match b64Decode nonceB64 with
    | none => .error errDecodeNonce
    | some nonce =>
      if aesKeyLenOK workspaceKey then
        match gcmOpen workspaceKey nonce ciphertext with
        | none => .error errDecrypt
        | some plaintext => .ok (bytesToStr plaintext)
      else .error errCreateCipher

/-- Translation of `EncryptForUser` (part_007, lines 243-257). -/
def EncryptForUser (recipientPublicKey data : List Nat) : Except String (List Nat) :=
  if recipientPublicKey.length ≠ KeySize then .error errInvalidPublicKeySize
  else .ok (sealAnonymous recipientPublicKey data)

/-- Translation of `DecryptFromUser` (part_007, lines 261-276). -/
def DecryptFromUser (privateKey publicKey encrypted : List Nat) : Except String (List Nat) :=
  if privateKey.length ≠ KeySize ∨ publicKey.length ≠ KeySize then .error errInvalidKeySize
  else
    match openAnonymous privateKey publicKey encrypted with
    | none => .error errAuthFailed
    | some decrypted => .ok decrypted

/-! ### Association-list helpers

`pkg/auth` builds the workspace cache as a Go `map[string]...`; the model
uses an association list with Go-map insert/lookup/delete semantics, plus
explicit iteration-order parameters where Go ranges over a map (Go map
iteration order is unspecified). -/

def lookupA {α : Type} : List (String × α) → String → Option α
  | [], _ => none
  | (k, v) :: tl, key => if k = key then some v else lookupA tl key

def removeA {α : Type} : List (String × α) → String → List (String × α)
  | [], _ => []
  | (k, v) :: tl, key => if k = key then removeA tl key else (k, v) :: removeA tl key

/-- Go map assignment `m[key] = v`: replace if present, else append. -/
def insertA {α : Type} (l : List (String × α)) (key : String) (v : α) : List (String × α) :=
  if (lookupA l key).isSome then
    l.map (fun p => if p.1 = key then (key, v) else p)
  else l ++ [(key, v)]

/-! ### Data model of the persisted session (`pkg/config`, `pkg/keyring`)

File I/O (`readJSON`/`writeJSON`, the OS keychain) is abstracted into a
pure `SessionState` record; the config helpers below mirror the read-
modify-write helpers of `config.go` and `keyring.go`. -/

structure WorkspaceCacheEntry where
  name : String
  key : String
  role : String
  type : String
deriving DecidableEq

structure GlobalConfig where
  email : String
  selectedWorkspaceID : String
  workspaces : List (String × WorkspaceCacheEntry)
deriving DecidableEq

structure TokenConfig where
  accessToken : String
  refreshToken : String
  expiresAt : String
deriving DecidableEq

structure KeyringState where
  entries : List (String × String)
deriving DecidableEq

structure SessionState where
  global : GlobalConfig
  tokens : TokenConfig
  keyring : KeyringState
deriving DecidableEq

def emptyGlobalConfig : GlobalConfig := ⟨"", "", []⟩

def emptyTokenConfig : TokenConfig := ⟨"", "", ""⟩

/-- Model of `config.GetEmail`. -/
def GetEmail (st : SessionState) : String := st.global.email

/-- Model of `config.SetEmail`. -/
def SetEmail (email : String) (st : SessionState) : SessionState :=
  { st with global := { st.global with email := email } }

/-- Model of `config.StoreTokens`. -/
def StoreTokens (accessToken refreshToken expiresAt : String) (st : SessionState) :
    SessionState :=
  { st with tokens := ⟨accessToken, refreshToken, expiresAt⟩ }

/-- Model of `config.GetSelectedWorkspaceID`. -/
def GetSelectedWorkspaceID (st : SessionState) : String := st.global.selectedWorkspaceID

/-- Model of `config.SetSelectedWorkspaceID`. -/
def SetSelectedWorkspaceID (id : String) (st : SessionState) : SessionState :=
  { st with global := { st.global with selectedWorkspaceID := id } }

/-- Model of `config.StoreWorkspaceCache` (replaces the whole cached map). -/
def StoreWorkspaceCache (workspaces : List (String × WorkspaceCacheEntry))
    (st : SessionState) : SessionState :=
  { st with global := { st.global with workspaces := workspaces } }

/-- Model of `config.ClearSession`: resets `config.json` and `token.json` to their
zero values (the in-memory write model always succeeds). -/
def ClearSession (st : SessionState) : Except String SessionState :=
  .ok { st with global := emptyGlobalConfig, tokens := emptyTokenConfig }

/-- Model of `keyring.StoreKeypair`: base64-encodes both halves under
`{email}_private_key` / `{email}_public_key`. -/
def StoreKeypair (email : String) (privateKey publicKey : List Nat) (st : SessionState) :
    SessionState :=
  { st with keyring := ⟨insertA
      (insertA st.keyring.entries (email ++ "_private_key") (b64Encode privateKey))
      (email ++ "_public_key") (b64Encode publicKey)⟩ }

/-- Model of `gokeyring.Delete`: errors when the entry is absent. -/
def gokeyringDelete (kr : KeyringState) (name : String) : Except String KeyringState :=
  match lookupA kr.entries name with
  | none => .error ("secret not found in keyring")
  | some _ => .ok ⟨removeA kr.entries name⟩

/-- Translation of `keyring.DeleteKeypair` (keyring.go, lines 56-61): both `Delete` calls
have their errors discarded, and `nil` is always returned. -/
def DeleteKeypair (email : String) (kr : KeyringState) : Except String KeyringState :=
  let kr1 := match gokeyringDelete kr (email ++ "_private_key") with
    | .ok k => k
    | .error _ => kr
  let kr2 := match gokeyringDelete kr1 (email ++ "_public_key") with
    | .ok k => k
    | .error _ => kr1
  .ok kr2

/-! ### Login response shape (`pkg/auth`, response types) -/

structure LoginWorkspace where
  id : String
  name : String
  encryptedWorkspaceKey : String
  role : String
  type : String
deriving DecidableEq

structure LoginUser where
  publicKey : String
  email : String
deriving DecidableEq

structure LoginData where
  access : String
  refresh : String
  expiresAt : String
  encryptedPrivateKey : String
  keySalt : String
  user : LoginUser
  workspaces : List LoginWorkspace
deriving DecidableEq

structure LoginResponse where
  accessToken : String
  refreshToken : String
  expiresAt : String
  data : LoginData
deriving DecidableEq

/-- Translation of `coalesce` (auth.go): first non-empty of two candidate fields. -/
def coalesce (a b : String) : String :=
  if a ≠ "" then a else b

def errKeysMissing : String := "login: encryption keys missing from server response"
def errInvalidPublicKeyResp : String := "login: invalid public key in response"

/-- Step 4 of `PerformLogin` (auth.go, lines 160-179): iterate the response's
workspace entries, skip any whose sealed blob fails to base64-decode or to
unwrap, and insert the rest into the (initially empty) cache map. -/
def buildWorkspaceCache (privateKey publicKey : List Nat) :
    List LoginWorkspace → List (String × WorkspaceCacheEntry) →
      List (String × WorkspaceCacheEntry)
  | [], acc => acc
  | ws :: rest, acc =>
    match b64Decode ws.encryptedWorkspaceKey with
    | none => buildWorkspaceCache privateKey publicKey rest acc
    | some encryptedWsKey =>
      match DecryptFromUser privateKey publicKey encryptedWsKey with
      | .error _ => buildWorkspaceCache privateKey publicKey rest acc
      | .ok wsKey =>
        buildWorkspaceCache privateKey publicKey rest
          (insertA acc ws.id ⟨ws.name, b64Encode wsKey, ws.role, ws.type⟩)

/-- Step 5 of `PerformLogin` (auth.go, lines 186-201): run only when the
cache is non-empty; keep a previously selected workspace; otherwise take
the first entry of type `"personal"` in map-iteration order `iter1`, and
failing that the first entry in map-iteration order `iter2`.  Go does not
specify map iteration order, so the two orders are explicit parameters. -/
def selectDefaultWorkspace
    (iter1 iter2 : List (String × WorkspaceCacheEntry) → List (String × WorkspaceCacheEntry))
    (workspaceCache : List (String × WorkspaceCacheEntry)) (st : SessionState) :
    SessionState :=
  if GetSelectedWorkspaceID st = "" then
    let stA :=
      match (iter1 workspaceCache).find? (fun p => p.2.type == "personal") with
      | some p => SetSelectedWorkspaceID p.1 st
      | none => st
    if GetSelectedWorkspaceID stA = "" then
      match (iter2 workspaceCache).head? with
      | some p => SetSelectedWorkspaceID p.1 stA
      | none => stA
    else stA
  else st

/-- Translation of `Service.PerformLogin` (auth.go, lines 98-205).  The
transport call and HTTP/JSON handling of step 1 are abstracted: `resp` is
the parsed successful login response.  `keypair` is the optional
`privateKey, publicKey` pair (signup flow passes it; the login flow passes
`none` and decrypts from the response).  `iter1`/`iter2` stand for the
unspecified Go map iteration orders of the two selection loops. -/
def PerformLogin (email password : String) (keypair : Option (List Nat × List Nat))
    (resp : LoginResponse)
    (iter1 iter2 : List (String × WorkspaceCacheEntry) → List (String × WorkspaceCacheEntry))
    (st : SessionState) : Except String SessionState :=
  let resolved : Except String (List Nat × List Nat) :=
    match keypair with
    | some kp => .ok kp
    | none =>
      if resp.data.encryptedPrivateKey = "" ∨ resp.data.keySalt = ""
          ∨ resp.data.user.publicKey = "" then
        .error errKeysMissing
      else
        match DecryptPrivateKey resp.data.encryptedPrivateKey password resp.data.keySalt with
        | .error e => .error e
        | .ok privateKey =>
          match b64Decode resp.data.user.publicKey with
          | none => .error errInvalidPublicKeyResp
          | some publicKey => .ok (privateKey, publicKey)
  match resolved with
  | .error e => .error e
  | .ok (privateKey, publicKey) =>
    let st1 := SetEmail email st
    let accessToken := coalesce resp.accessToken resp.data.access
    let refreshToken := coalesce resp.refreshToken resp.data.refresh
    let expiresAt := coalesce resp.expiresAt resp.data.expiresAt
    let st2 := StoreTokens accessToken refreshToken expiresAt st1
    let st3 := StoreKeypair email privateKey publicKey st2
    let workspaceCache := buildWorkspaceCache privateKey publicKey resp.data.workspaces []
    if workspaceCache.length > 0 then
      .ok (selectDefaultWorkspace iter1 iter2 workspaceCache (StoreWorkspaceCache workspaceCache st3))
    else
      .ok st3

/-- Translation of `Service.Logout` (auth.go, lines 208-221): best-effort
transport call (ignored), keyring cleared when an email is stored (errors
ignored), then `ClearSession`. -/
def Logout (st : SessionState) : Except String SessionState :=
  let email := GetEmail st
  let kr :=
    if email ≠ "" then
      match DeleteKeypair email st.keyring with
      | .ok k => k
      | .error _ => st.keyring
    else st.keyring
  ClearSession { st with keyring := kr }

/-! Accessors used to state claim theorems without existential binders. -/

def emailOf (r : Except String SessionState) : Option String :=
  match r with
  | .ok st => some st.global.email
  | .error _ => none

def selectedOf (r : Except String SessionState) : Option String :=
  match r with
  | .ok st => some st.global.selectedWorkspaceID
  | .error _ => none

def workspacesOf (r : Except String SessionState) : Option (List (String × WorkspaceCacheEntry)) :=
  match r with
  | .ok st => some st.global.workspaces
  | .error _ => none

def tokensOf (r : Except String SessionState) : Option TokenConfig :=
  match r with
  | .ok st => some st.tokens
  | .error _ => none

def keyringOf (r : Except String SessionState) : Option KeyringState :=
  match r with
  | .ok st => some st.keyring
  | .error _ => none

/-- A workspace entry of the login response whose sealed blob decodes and
unwraps under the resolved identity keypair. -/
def wsBlobValid (privateKey publicKey : List Nat) (ws : LoginWorkspace) : Bool :=
  match b64Decode ws.encryptedWorkspaceKey with
  | none => false
  | some encryptedWsKey => (DecryptFromUser privateKey publicKey encryptedWsKey).isOk

/-- The cache entry a valid workspace contributes (`none` for invalid ones). -/
def wsEntry (privateKey publicKey : List Nat) (ws : LoginWorkspace) :
    Option (String × WorkspaceCacheEntry) :=
  match b64Decode ws.encryptedWorkspaceKey with
  | none => none
  | some encryptedWsKey =>
    match DecryptFromUser privateKey publicKey encryptedWsKey with
    | .error _ => none
    | .ok wsKey => some (ws.id, ⟨ws.name, b64Encode wsKey, ws.role, ws.type⟩)

/-- The cache a login response should produce: one entry per valid
workspace, in response order. -/
def expectedCache (privateKey publicKey : List Nat) (wss : List LoginWorkspace) :
    List (String × WorkspaceCacheEntry) :=
  wss.filterMap (wsEntry privateKey publicKey)

/-! ### Auxiliary definitions for claim statements and concrete scenarios -/

/-- The hex-digit alphabet accepted by Go `encoding/hex`. -/
def isHexDigit (c : Char) : Prop :=
  ('0' ≤ c ∧ c ≤ '9') ∨ ('a' ≤ c ∧ c ≤ 'f') ∨ ('A' ≤ c ∧ c ≤ 'F')

instance (c : Char) : Decidable (isHexDigit c) := by
  unfold isHexDigit; infer_instance

def keyringLookup (r : Except String SessionState) (name : String) : Option String :=
  match r with
  | .ok st => lookupA st.keyring.entries name
  | .error _ => none

/-- Identity map iteration order. -/
def iterId : List (String × WorkspaceCacheEntry) → List (String × WorkspaceCacheEntry) :=
  fun l => l

/-- Reversed map iteration order (Go map iteration order is unspecified, so
this is as legitimate as the identity order). -/
def iterRev : List (String × WorkspaceCacheEntry) → List (String × WorkspaceCacheEntry) :=
  List.reverse

def stEmpty : SessionState := ⟨emptyGlobalConfig, emptyTokenConfig, ⟨[]⟩⟩

def privW : List Nat := List.range 32
def pubW : List Nat := pubOf privW
def wsKeyW : List Nat := List.replicate 32 1
def blobW : String := b64Encode (sealAnonymous pubW wsKeyW)

def wsA : LoginWorkspace := ⟨"a", "Alpha", blobW, "member", "team"⟩
def wsB : LoginWorkspace := ⟨"b", "Beta", blobW, "member", "team"⟩
def wsBad : LoginWorkspace := ⟨"bad", "Broken", "!", "member", "team"⟩

def wsP : LoginWorkspace := ⟨"p", "Personal", blobW, "owner", "personal"⟩

def respValidAndBad : LoginResponse := ⟨"t", "r", "e", ⟨"", "", "", "", "", ⟨"", ""⟩, [wsA, wsBad]⟩⟩
def respPersonal : LoginResponse := ⟨"t", "r", "e", ⟨"", "", "", "", "", ⟨"", ""⟩, [wsB, wsP]⟩⟩
def respBadOnly : LoginResponse := ⟨"t", "r", "e", ⟨"", "", "", "", "", ⟨"", ""⟩, [wsBad]⟩⟩
def respTwoTeam : LoginResponse := ⟨"t", "r", "e", ⟨"", "", "", "", "", ⟨"", ""⟩, [wsA, wsB]⟩⟩
def respNoWs : LoginResponse := ⟨"t", "r", "e", ⟨"", "", "", "", "", ⟨"", ""⟩, []⟩⟩

def stStale : SessionState :=
  ⟨⟨"old@x", "", [("stale", ⟨"Old", "k", "member", "team"⟩)]⟩, emptyTokenConfig, ⟨[]⟩⟩

def stLoggedIn : SessionState :=
  ⟨⟨"u@x", "w1", [("w1", ⟨"W", "k", "owner", "personal"⟩)]⟩, ⟨"at", "rt", "ex"⟩,
    ⟨[("u@x_private_key", "P"), ("u@x_public_key", "Q"), ("other", "O")]⟩⟩

/-! ## Theorems -/

theorem decNat_encNatAux : ∀ (fuel n : Nat), n ≤ fuel → decNat (encNatAux fuel n) = n := by
  intro fuel
  induction fuel with
  | zero =>
    intro n hn
    have hz : n = 0 := Nat.le_zero.mp hn
    subst hz
    rfl
  | succ fuel ih =>
    intro n hn
    match n with
    | 0 => rfl
    | n + 1 =>
      have hdiv : (n + 1) / 2 ≤ fuel := by omega
      have hrec := ih ((n + 1) / 2) hdiv
      show (n + 1) % 2 + 2 * decNat (encNatAux fuel ((n + 1) / 2)) = n + 1
      rw [hrec]
      omega

theorem decNat_encNat (n : Nat) : decNat (encNat n) = n :=
  decNat_encNatAux n n (Nat.le_refl n)

theorem encNatAux_digit_lt : ∀ (fuel n d : Nat), d ∈ encNatAux fuel n → d < 2 := by
  intro fuel
  induction fuel with
  | zero =>
    intro n d hd
    match n with
    | 0 => simp [encNatAux] at hd
    | n + 1 => simp [encNatAux] at hd
  | succ fuel ih =>
    intro n d hd
    match n with
    | 0 => simp [encNatAux] at hd
    | n + 1 =>
      rcases List.mem_cons.mp hd with h1 | h2
      · omega
      · exact ih ((n + 1) / 2) d h2

theorem encNat_digit_lt {n d : Nat} (h : d ∈ encNat n) : d < 2 :=
  encNatAux_digit_lt n n d h

theorem encodeList_digit_lt {l : List Nat} {d : Nat} (h : d ∈ encodeList l) : d < 3 := by
  induction l with
  | nil => simp [encodeList] at h
  | cons x xs ih =>
    simp only [encodeList, List.foldr] at h
    rcases List.mem_append.mp h with h1 | h2
    · have := encNat_digit_lt h1; omega
    · rcases List.mem_cons.mp h2 with h3 | h4
      · omega
      · exact ih h4

theorem splitSep_append (ds rest : List Nat) (h : ∀ d ∈ ds, d < 2) :
    splitSep (ds ++ 2 :: rest) = some (ds, rest) := by
  induction ds with
  | nil => rfl
  | cons d tl ih =>
    have hd : d < 2 := h d (List.mem_cons_self d tl)
    have htl : ∀ x ∈ tl, x < 2 := fun x hx => h x (List.mem_cons_of_mem d hx)
    simp only [List.cons_append, splitSep, List.append_eq]
    rw [if_neg (by omega), if_pos hd, ih htl]

theorem decodeListAux_encodeList (bs : List Nat) :
    ∀ fuel, (encodeList bs).length ≤ fuel → decodeListAux fuel (encodeList bs) = some bs := by
  induction bs with
  | nil => intro fuel _; cases fuel <;> rfl
  | cons x xs ih =>
    intro fuel hlen
    have hform : encodeList (x :: xs) = encNat x ++ 2 :: encodeList xs := rfl
    rw [hform] at hlen ⊢
    have hne : encNat x ++ 2 :: encodeList xs ≠ [] := by
      intro hcontra
      exact absurd (congrArg List.length hcontra) (by simp)
    match fuel, hlen with
    | 0, hlen => exact absurd hlen (by simp)
    | fuel + 1, hlen =>
      have hsplit := splitSep_append (encNat x) (encodeList xs) (fun d hd => encNat_digit_lt hd)
      have hlen2 : (encodeList xs).length ≤ fuel := by
        simp [List.length_append] at hlen
        omega
      match hform2 : encNat x ++ 2 :: encodeList xs with
      | [] => exact absurd hform2 hne
      | d :: rest =>
        rw [hform2] at hsplit
        simp only [decodeListAux, hsplit, ih fuel hlen2, decNat_encNat]

theorem decodeList_encodeList (bs : List Nat) : decodeList (encodeList bs) = some bs :=
  decodeListAux_encodeList bs (encodeList bs).length (Nat.le_refl _)

theorem encodeList_injective {a b : List Nat} (h : encodeList a = encodeList b) : a = b := by
  have ha := decodeList_encodeList a
  have hb := decodeList_encodeList b
  rw [h, hb] at ha
  exact (Option.some.injEq _ _ ▸ ha).symm

theorem fromNumAux_toNum (ds : List Nat) (h : ∀ d ∈ ds, d < 3) :
    ∀ fuel, toNum ds ≤ fuel → fromNumAux fuel (toNum ds) = ds := by
  induction ds with
  | nil =>
    intro fuel _
    cases fuel <;> rfl
  | cons d tl ih =>
    intro fuel hfuel
    have hd : d < 3 := h d (List.mem_cons_self d tl)
    have htl : ∀ x ∈ tl, x < 3 := fun x hx => h x (List.mem_cons_of_mem d hx)
    have hval : toNum (d :: tl) = (d + 1) + 4 * toNum tl := rfl
    rw [hval] at hfuel ⊢
    match fuel, hfuel with
    | 0, hfuel => omega
    | fuel + 1, hfuel =>
      match hn : (d + 1) + 4 * toNum tl with
      | 0 => omega
      | n + 1 =>
        have hmod : (n + 1) % 4 = d + 1 := by omega
        have hdiv : (n + 1) / 4 = toNum tl := by omega
        show ((n + 1) % 4 - 1) :: fromNumAux fuel ((n + 1) / 4) = d :: tl
        rw [hmod, hdiv, ih htl fuel (by omega)]
        simp

theorem fromNum_toNum (ds : List Nat) (h : ∀ d ∈ ds, d < 3) : fromNum (toNum ds) = ds :=
  fromNumAux_toNum ds h (toNum ds) (Nat.le_refl _)

theorem natOfList_injective {a b : List Nat} (h : natOfList a = natOfList b) : a = b := by
  have ha := fromNum_toNum (encodeList a) (fun d hd => encodeList_digit_lt hd)
  have hb := fromNum_toNum (encodeList b) (fun d hd => encodeList_digit_lt hd)
  unfold natOfList at h
  rw [h, hb] at ha
  exact (encodeList_injective ha).symm

theorem charToNat_injective {a b : Char} (h : Char.toNat a = Char.toNat b) : a = b := by
  have := congrArg Char.ofNat h
  rwa [Char.ofNat_toNat, Char.ofNat_toNat] at this

theorem natOfString_injective {a b : String} (h : natOfString a = natOfString b) : a = b := by
  unfold natOfString at h
  have hmap := natOfList_injective h
  have hdata : a.data = b.data :=
    List.map_injective_iff.mpr (fun _ _ => charToNat_injective) hmap
  exact String.ext hdata

theorem fromHexChar_hexDigitChar : ∀ n < 16, fromHexChar (hexDigitChar n) = some n := by
  decide

theorem hexDecode_hexEncode (bs : List Nat) (h : ∀ b ∈ bs, b < 256) :
    hexDecode (hexEncode bs) = some bs := by
  unfold hexDecode hexEncode
  induction bs with
  | nil => rfl
  | cons b tl ih =>
    have hb : b < 256 := h b (List.mem_cons_self b tl)
    have htl : ∀ x ∈ tl, x < 256 := fun x hx => h x (List.mem_cons_of_mem b hx)
    have hhi := fromHexChar_hexDigitChar (b / 16) (by omega)
    have hlo := fromHexChar_hexDigitChar (b % 16) (by omega)
    have hbyte : 16 * (b / 16) + b % 16 = b := by omega
    simp only [hexEncodeChars, hexDecodeChars, hhi, hlo, ih htl, hbyte]

theorem b64CharDigit_b64DigitChar : ∀ d < 3, b64CharDigit (b64DigitChar d) = some d := by
  decide

theorem mapOpt_b64_digits (ds : List Nat) (h : ∀ d ∈ ds, d < 3) :
    mapOpt b64CharDigit (ds.map b64DigitChar) = some ds := by
  induction ds with
  | nil => rfl
  | cons d tl ih =>
    have hd := b64CharDigit_b64DigitChar d (h d (List.mem_cons_self d tl))
    have htl := ih (fun x hx => h x (List.mem_cons_of_mem d hx))
    simp only [List.map_cons, mapOpt, hd, htl]

theorem b64Decode_b64Encode (bs : List Nat) : b64Decode (b64Encode bs) = some bs := by
  unfold b64Decode b64Encode
  have hdata : (String.mk ((encodeList bs).map b64DigitChar)).data
      = (encodeList bs).map b64DigitChar := rfl
  rw [hdata, mapOpt_b64_digits (encodeList bs) (fun d hd => encodeList_digit_lt hd)]
  exact decodeList_encodeList bs

theorem argon2IDKey_length (password : String) (salt : List Nat) :
    (argon2IDKey password salt).length = 32 := by
  simp [argon2IDKey]

theorem argon2IDKey_injective {p q : String} {s t : List Nat}
    (h : argon2IDKey p s = argon2IDKey q t) : p = q ∧ s = t := by
  unfold argon2IDKey at h
  have h1 : natOfString p = natOfString q := (List.cons.injEq _ _ _ _ ▸ h).1
  have h2 : natOfList s = natOfList t :=
    (List.cons.injEq _ _ _ _ ▸ (List.cons.injEq _ _ _ _ ▸ h).2).1
  exact ⟨natOfString_injective h1, natOfList_injective h2⟩

theorem gcmTag_length (key nonce : List Nat) : (gcmTag key nonce).length = gcmTagLen := by
  simp [gcmTag, gcmTagLen]

theorem gcmTag_injective {k k' n n' : List Nat} (h : gcmTag k n = gcmTag k' n') :
    k = k' ∧ n = n' := by
  unfold gcmTag at h
  have h1 : natOfList k = natOfList k' := (List.cons.injEq _ _ _ _ ▸ h).1
  have h2 : natOfList n = natOfList n' :=
    (List.cons.injEq _ _ _ _ ▸ (List.cons.injEq _ _ _ _ ▸ h).2).1
  exact ⟨natOfList_injective h1, natOfList_injective h2⟩

theorem gcmOpen_gcmSeal (key nonce plaintext : List Nat) (hn : nonce.length = NonceSize) :
    gcmOpen key nonce (gcmSeal key nonce plaintext) = some plaintext := by
  unfold gcmOpen gcmSeal
  have hlen : (plaintext ++ gcmTag key nonce).length = plaintext.length + gcmTagLen := by
    simp [gcmTag_length]
  rw [if_neg (by omega), hlen]
  have hsub : plaintext.length + gcmTagLen - gcmTagLen = plaintext.length := by omega
  rw [if_neg (by omega), hsub]
  have hdrop : (plaintext ++ gcmTag key nonce).drop plaintext.length = gcmTag key nonce :=
    List.drop_left plaintext (gcmTag key nonce)
  have htake : (plaintext ++ gcmTag key nonce).take plaintext.length = plaintext :=
    List.take_left plaintext (gcmTag key nonce)
  rw [hdrop, if_pos rfl, htake]

/-- Opening a sealed ciphertext under a different key (or nonce) fails. -/
theorem gcmOpen_wrong_key (key key' nonce nonce' plaintext : List Nat)
    (hne : key ≠ key' ∨ nonce ≠ nonce') :
    gcmOpen key' nonce' (gcmSeal key nonce plaintext) = none := by
  unfold gcmOpen gcmSeal
  by_cases hn : nonce'.length ≠ NonceSize
  · rw [if_pos hn]
  · rw [if_neg hn]
    have hlen : (plaintext ++ gcmTag key nonce).length = plaintext.length + gcmTagLen := by
      simp [gcmTag_length]
    rw [hlen]
    have hsub : plaintext.length + gcmTagLen - gcmTagLen = plaintext.length := by omega
    rw [if_neg (by omega), hsub]
    have hdrop : (plaintext ++ gcmTag key nonce).drop plaintext.length = gcmTag key nonce :=
      List.drop_left plaintext (gcmTag key nonce)
    rw [hdrop, if_neg]
    intro heq
    rcases gcmTag_injective heq with ⟨hk, hn2⟩
    rcases hne with h | h
    · exact h hk
    · exact h hn2

theorem pubOf_length (priv : List Nat) : (pubOf priv).length = 32 := by
  simp [pubOf]

theorem openAnonymous_sealAnonymous (priv data : List Nat) :
    openAnonymous priv (pubOf priv) (sealAnonymous (pubOf priv) data) = some data := by
  simp [openAnonymous, sealAnonymous]

theorem bytesToStr_strToBytes (s : String) : bytesToStr (strToBytes s) = s := by
  unfold bytesToStr strToBytes
  apply String.ext
  show (s.data.map Char.toNat).map Char.ofNat = s.data
  rw [List.map_map]
  have : (Char.ofNat ∘ Char.toNat) = id := by
    funext c
    exact Char.ofNat_toNat c

  rw [this, List.map_id]

/-! ### Helper lemmas for the crypto theorems -/

theorem aesKeyLenOK_argon2 (password : String) (salt : List Nat) :
    aesKeyLenOK (argon2IDKey password salt) :=
  Or.inr (Or.inr (argon2IDKey_length password salt))

/-- With well-formed entropy, `EncryptPrivateKey` succeeds and its output has
the documented wire shape `base64(nonce || ciphertext_with_tag)`, `hex(salt)`. -/
theorem EncryptPrivateKey_eval (K : List Nat) (P : String) (salt nonce : List Nat)
    (hsalt : ∀ b ∈ salt, b < 256) :
    EncryptPrivateKey K P salt nonce
      = .ok (b64Encode (nonce ++ gcmSeal (argon2IDKey P salt) nonce K), hexEncode salt) := by
  unfold EncryptPrivateKey DeriveKeyFromPassword
  simp only [hexDecode_hexEncode salt hsalt]
  rw [if_pos (aesKeyLenOK_argon2 P salt)]

/-- Core decryption evaluation: decrypting the encryption wire format with an
arbitrary candidate password reduces to a GCM open under the re-derived key. -/
theorem DecryptPrivateKey_eval (K : List Nat) (P P' : String) (salt nonce : List Nat)
    (hsalt : ∀ b ∈ salt, b < 256) (hnonce : nonce.length = NonceSize) :
    DecryptPrivateKey (b64Encode (nonce ++ gcmSeal (argon2IDKey P salt) nonce K))
        P' (hexEncode salt)
      = match gcmOpen (argon2IDKey P' salt) nonce (gcmSeal (argon2IDKey P salt) nonce K) with
        | none => .error errDecryptPrivateKey
        | some privateKey => .ok privateKey := by
  unfold DecryptPrivateKey DeriveKeyFromPassword
  simp only [b64Decode_b64Encode, hexDecode_hexEncode salt hsalt]
  rw [if_pos (aesKeyLenOK_argon2 P' salt)]
  have hlen : (nonce ++ gcmSeal (argon2IDKey P salt) nonce K).length
      = NonceSize + (K.length + gcmTagLen) := by
    simp [gcmSeal, gcmTag_length, hnonce]
  rw [if_neg (by rw [hlen]; omega)]
  rw [show NonceSize = nonce.length from hnonce.symm, List.take_left, List.drop_left]

/-- Claim C2 (confirmed).  Identity round-trip: for a 32-byte key `K` and a
non-empty password `P`, if `EncryptPrivateKey(K, P)` returns `(ct, salt)`
then `DecryptPrivateKey(ct, P, salt)` returns exactly `K`.  The random salt
and nonce drawn inside `EncryptPrivateKey` appear as explicit byte-string
arguments with their RNG well-formedness (byte-valued salt, 12-byte nonce). -/
theorem identity_key_roundtrip (K : List Nat) (P : String) (salt nonce : List Nat)
    (hK : K.length = 32) (hP : P ≠ "")
    (hsalt : ∀ b ∈ salt, b < 256) (hnonce : nonce.length = NonceSize)
    (ct saltHex : String)
    (henc : EncryptPrivateKey K P salt nonce = .ok (ct, saltHex)) :
    DecryptPrivateKey ct P saltHex = .ok K := by
  have heval := EncryptPrivateKey_eval K P salt nonce hsalt
  rw [henc] at heval
  have hpair := Except.ok.inj heval
  have hct : ct = b64Encode (nonce ++ gcmSeal (argon2IDKey P salt) nonce K) :=
    congrArg Prod.fst hpair
  have hsh : saltHex = hexEncode salt := congrArg Prod.snd hpair
  rw [hct, hsh, DecryptPrivateKey_eval K P P salt nonce hsalt hnonce,
    gcmOpen_gcmSeal _ _ _ hnonce]

/-- Closed witness for `identity_key_roundtrip` at the spec's concrete
scenario: password `"correct-horse-battery"`, 32-byte zero key. -/
theorem identity_key_roundtrip_witness :
    DecryptPrivateKey
        (b64Encode (List.replicate 12 0
          ++ gcmSeal (argon2IDKey ("correct-horse-battery") (List.range 32))
              (List.replicate 12 0) (List.replicate 32 0)))
        ("correct-horse-battery") (hexEncode (List.range 32))
      = .ok (List.replicate 32 0) :=
  identity_key_roundtrip (List.replicate 32 0) ("correct-horse-battery")
    (List.range 32) (List.replicate 12 0)
    (by decide) (by decide) (by decide) (by decide) _ _
    (EncryptPrivateKey_eval _ _ _ _ (by decide))

/-- Claim C1 (confirmed).  Wrong-password rejection: decrypting the ciphertext
produced by `EncryptPrivateKey(K, P)` with any password `P' ≠ P` and the
returned salt fails with the tag-verification error and returns no
plaintext bytes.  (Proved over the idealized AEAD model, in which tag
verification fails exactly when the derived key differs; the Argon2id model
is injective in the password.) -/
theorem wrong_password_rejected (K : List Nat) (P Pbad : String) (salt nonce : List Nat)
    (hne : Pbad ≠ P)
    (hsalt : ∀ b ∈ salt, b < 256) (hnonce : nonce.length = NonceSize)
    (ct saltHex : String)
    (henc : EncryptPrivateKey K P salt nonce = .ok (ct, saltHex)) :
    DecryptPrivateKey ct Pbad saltHex = .error errDecryptPrivateKey := by
  have heval := EncryptPrivateKey_eval K P salt nonce hsalt
  rw [henc] at heval
  have hpair := Except.ok.inj heval
  have hct : ct = b64Encode (nonce ++ gcmSeal (argon2IDKey P salt) nonce K) :=
    congrArg Prod.fst hpair
  have hsh : saltHex = hexEncode salt := congrArg Prod.snd hpair
  rw [hct, hsh, DecryptPrivateKey_eval K P Pbad salt nonce hsalt hnonce]
  have hkeys : argon2IDKey P salt ≠ argon2IDKey Pbad salt := by
    intro heq
    exact hne ((argon2IDKey_injective heq).1.symm)
  rw [gcmOpen_wrong_key _ _ _ _ _ (Or.inl hkeys)]

/-- Closed witness for `wrong_password_rejected`. -/
theorem wrong_password_rejected_witness :
    DecryptPrivateKey
        (b64Encode (List.replicate 12 0
          ++ gcmSeal (argon2IDKey ("hunter2") (List.range 32))
              (List.replicate 12 0) (List.replicate 32 0)))
        ("hunter3") (hexEncode (List.range 32))
      = .error errDecryptPrivateKey :=
  wrong_password_rejected (List.replicate 32 0) ("hunter2") ("hunter3")
    (List.range 32) (List.replicate 12 0)
    (by decide) (by decide) (by decide) _ _
    (EncryptPrivateKey_eval _ _ _ _ (by decide))

/-- Claim C3 (confirmed).  Sealed-box round-trip: for a keypair produced by
`GenerateKeypair` (randomness `seed`) and any 32-byte `K`,
`DecryptFromUser(sk, pk, EncryptForUser(pk, K))` returns exactly `K`. -/
theorem sealed_box_roundtrip (seed K : List Nat)
    (hseed : seed.length = 32) (hK : K.length = 32) (blob : List Nat)
    (henc : EncryptForUser (GenerateKeypair seed).2 K = .ok blob) :
    DecryptFromUser (GenerateKeypair seed).1 (GenerateKeypair seed).2 blob = .ok K := by
  unfold GenerateKeypair at henc ⊢
  unfold EncryptForUser at henc
  rw [if_neg (by simp [pubOf_length, KeySize])] at henc
  have hblob : blob = sealAnonymous (pubOf seed) K := (Except.ok.inj henc).symm
  unfold DecryptFromUser
  rw [if_neg (by simp [pubOf_length, KeySize, hseed])]
  rw [hblob]
  simp only [openAnonymous_sealAnonymous]

/-- Closed witness for `sealed_box_roundtrip`. -/
theorem sealed_box_roundtrip_witness :
    DecryptFromUser (GenerateKeypair (List.range 32)).1 (GenerateKeypair (List.range 32)).2
        (sealAnonymous (pubOf (List.range 32)) (List.replicate 32 7))
      = .ok (List.replicate 32 7) :=
  sealed_box_roundtrip (List.range 32) (List.replicate 32 7)
    (by decide) (by decide) _ (by rfl)

/-- Claim C4 (confirmed).  Secret round-trip: for every string `v` (empty and
arbitrarily long included — `v` is universally quantified) and 32-byte
workspace key `K`, if `EncryptSecret(v, K)` returns `(ct, nonce)` then
`DecryptSecret(ct, nonce, K)` returns exactly `v`. -/
theorem secret_roundtrip (v : String) (K nonce : List Nat)
    (hK : K.length = 32) (hnonce : nonce.length = NonceSize)
    (ct nonceB64 : String)
    (henc : EncryptSecret v K nonce = .ok (ct, nonceB64)) :
    DecryptSecret ct nonceB64 K = .ok v := by
  unfold EncryptSecret at henc
  have haes : aesKeyLenOK K := Or.inr (Or.inr hK)
  rw [if_pos haes] at henc
  have hpair := Except.ok.inj henc
  have hct : ct = b64Encode (gcmSeal K nonce (strToBytes v)) :=
    (congrArg Prod.fst hpair).symm
  have hnb : nonceB64 = b64Encode nonce := (congrArg Prod.snd hpair).symm
  unfold DecryptSecret
  rw [hct, hnb]
  simp only [b64Decode_b64Encode]
  rw [if_pos haes, gcmOpen_gcmSeal _ _ _ hnonce]
  simp only [bytesToStr_strToBytes]

/-- Closed witness for `secret_roundtrip`. -/
theorem secret_roundtrip_witness :
    DecryptSecret (b64Encode (gcmSeal (List.range 32) (List.replicate 12 9)
        (strToBytes ("db-password-123!")))) (b64Encode (List.replicate 12 9)) (List.range 32)
      = .ok ("db-password-123!") :=
  secret_roundtrip ("db-password-123!") (List.range 32) (List.replicate 12 9)
    (by decide) (by decide) _ _
    (by rw [EncryptSecret, if_pos (by decide : aesKeyLenOK (List.range 32))])

theorem insertA_of_lookup_none {α : Type} (l : List (String × α)) (key : String) (v : α)
    (h : lookupA l key = none) : insertA l key v = l ++ [(key, v)] := by
  unfold insertA
  rw [h]
  rfl

theorem lookupA_append_singleton {α : Type} (l : List (String × α)) (k key : String) (v : α) :
    lookupA (l ++ [(key, v)]) k = if (lookupA l k).isSome then lookupA l k
      else if key = k then some v else none := by
  induction l with
  | nil => simp [lookupA]
  | cons p tl ih =>
    rcases p with ⟨pk, pv⟩
    by_cases hk : pk = k
    · simp [lookupA, hk]
    · simp only [List.cons_append, lookupA, if_neg hk, List.append_eq]
      exact ih

theorem lookupA_removeA_self {α : Type} (l : List (String × α)) (key : String) :
    lookupA (removeA l key) key = none := by
  induction l with
  | nil => rfl
  | cons p tl ih =>
    rcases p with ⟨pk, pv⟩
    by_cases hk : pk = key
    · simp [removeA, hk, ih]
    · simp [removeA, hk, lookupA, ih]

theorem lookupA_removeA_ne {α : Type} (l : List (String × α)) (key k : String) (hne : k ≠ key) :
    lookupA (removeA l key) k = lookupA l k := by
  induction l with
  | nil => rfl
  | cons p tl ih =>
    rcases p with ⟨pk, pv⟩
    by_cases hk : pk = key
    · rw [removeA]
      rw [if_pos hk, ih, lookupA, if_neg (by rw [hk]; exact fun h => hne h.symm)]
    · rw [removeA, if_neg hk, lookupA, lookupA]
      by_cases hpk : pk = k
      · rw [if_pos hpk, if_pos hpk]
      · rw [if_neg hpk, if_neg hpk, ih]

/-! ### Cache-construction and selection lemmas -/

theorem buildWorkspaceCache_cons (privateKey publicKey : List Nat)
    (ws : LoginWorkspace) (rest : List LoginWorkspace)
    (acc : List (String × WorkspaceCacheEntry)) :
    buildWorkspaceCache privateKey publicKey (ws :: rest) acc
      = match wsEntry privateKey publicKey ws with
        | none => buildWorkspaceCache privateKey publicKey rest acc
        | some e => buildWorkspaceCache privateKey publicKey rest (insertA acc e.1 e.2) := by
  cases hdec : b64Decode ws.encryptedWorkspaceKey with
  | none => simp only [buildWorkspaceCache, wsEntry, hdec]
  | some enc =>
    cases hdk : DecryptFromUser privateKey publicKey enc with
    | error e => simp only [buildWorkspaceCache, wsEntry, hdec, hdk]
    | ok wsKey => simp only [buildWorkspaceCache, wsEntry, hdec, hdk]

theorem wsEntry_fst (privateKey publicKey : List Nat) (ws : LoginWorkspace)
    (e : String × WorkspaceCacheEntry)
    (h : wsEntry privateKey publicKey ws = some e) : e.1 = ws.id := by
  unfold wsEntry at h
  cases hdec : b64Decode ws.encryptedWorkspaceKey with
  | none =>
    simp only [hdec] at h
    exact Option.noConfusion h
  | some enc =>
    simp only [hdec] at h
    cases hdk : DecryptFromUser privateKey publicKey enc with
    | error err =>
      simp only [hdk] at h
      exact Option.noConfusion h
    | ok wsKey =>
      simp only [hdk] at h
      rw [← Option.some.inj h]

theorem wsBlobValid_eq_isSome (privateKey publicKey : List Nat) (ws : LoginWorkspace) :
    wsBlobValid privateKey publicKey ws = (wsEntry privateKey publicKey ws).isSome := by
  unfold wsBlobValid wsEntry
  cases hdec : b64Decode ws.encryptedWorkspaceKey with
  | none => simp only [hdec]; rfl
  | some enc =>
    simp only [hdec]
    cases hdk : DecryptFromUser privateKey publicKey enc with
    | error err => simp only [hdk]; rfl
    | ok wsKey => simp only [hdk]; rfl

theorem buildWorkspaceCache_eq (privateKey publicKey : List Nat) :
    ∀ (wss : List LoginWorkspace) (acc : List (String × WorkspaceCacheEntry)),
      (∀ ws ∈ wss, lookupA acc ws.id = none) →
      (wss.map LoginWorkspace.id).Nodup →
      buildWorkspaceCache privateKey publicKey wss acc
        = acc ++ expectedCache privateKey publicKey wss := by
  intro wss
  induction wss with
  | nil => intro acc _ _; simp [buildWorkspaceCache, expectedCache]
  | cons ws rest ih =>
    intro acc hacc hnodup
    have hcons : (ws.id :: rest.map LoginWorkspace.id).Nodup := by simpa using hnodup
    have hrest_nodup : (rest.map LoginWorkspace.id).Nodup := (List.nodup_cons.mp hcons).2
    have hhead : ws.id ∉ rest.map LoginWorkspace.id := (List.nodup_cons.mp hcons).1
    rw [buildWorkspaceCache_cons]
    rcases hws : wsEntry privateKey publicKey ws with _ | e
    · simp only [expectedCache, List.filterMap_cons, hws]
      exact ih acc (fun w hw => hacc w (List.mem_cons_of_mem ws hw)) hrest_nodup
    · simp only [expectedCache, List.filterMap_cons, hws]
      have hfst : e.1 = ws.id := wsEntry_fst privateKey publicKey ws e hws
      have hins : insertA acc e.1 e.2 = acc ++ [(e.1, e.2)] := by
        apply insertA_of_lookup_none
        rw [hfst]
        exact hacc ws (List.mem_cons_self ws rest)
      rw [hins, ih _ ?hlook hrest_nodup]
      · rw [List.append_assoc]
        rfl
      case hlook =>
        intro w hw
        rw [lookupA_append_singleton, hacc w (List.mem_cons_of_mem ws hw)]
        have hne : e.1 ≠ w.id := by
          rw [hfst]
          intro hcontra
          exact hhead (hcontra ▸ List.mem_map_of_mem LoginWorkspace.id hw)
        simp [hne]

theorem expectedCache_map_fst (privateKey publicKey : List Nat) (wss : List LoginWorkspace) :
    (expectedCache privateKey publicKey wss).map Prod.fst
      = (wss.filter (wsBlobValid privateKey publicKey)).map LoginWorkspace.id := by
  induction wss with
  | nil => rfl
  | cons ws rest ih =>
    rcases hws : wsEntry privateKey publicKey ws with _ | e
    · have hvalid : wsBlobValid privateKey publicKey ws = false := by
        rw [wsBlobValid_eq_isSome, hws]; rfl
      simp only [expectedCache, List.filterMap_cons, hws, List.filter_cons, hvalid] at ih ⊢
      simpa using ih
    · have hvalid : wsBlobValid privateKey publicKey ws = true := by
        rw [wsBlobValid_eq_isSome, hws]; rfl
      have hfst : e.1 = ws.id := wsEntry_fst privateKey publicKey ws e hws
      simp only [expectedCache, List.filterMap_cons, hws, List.filter_cons, hvalid] at ih ⊢
      simp [hfst, ih]

/-- Members of the expected cache come from valid response workspaces and
keep their identifiers. -/
theorem mem_expectedCache (privateKey publicKey : List Nat) (wss : List LoginWorkspace)
    (p : String × WorkspaceCacheEntry) (hp : p ∈ expectedCache privateKey publicKey wss) :
    ∃ ws ∈ wss, p.1 = ws.id := by
  rcases List.mem_filterMap.mp hp with ⟨ws, hws, hentry⟩
  exact ⟨ws, hws, wsEntry_fst privateKey publicKey ws p hentry⟩

theorem selectDefault_of_prior (iter1 iter2 :
      List (String × WorkspaceCacheEntry) → List (String × WorkspaceCacheEntry))
    (c : List (String × WorkspaceCacheEntry)) (st : SessionState)
    (h : GetSelectedWorkspaceID st ≠ "") :
    selectDefaultWorkspace iter1 iter2 c st = st := by
  unfold selectDefaultWorkspace
  rw [if_neg h]

theorem selectDefault_preserves (iter1 iter2 :
      List (String × WorkspaceCacheEntry) → List (String × WorkspaceCacheEntry))
    (c : List (String × WorkspaceCacheEntry)) (st : SessionState) :
    (selectDefaultWorkspace iter1 iter2 c st).global.workspaces = st.global.workspaces
    ∧ (selectDefaultWorkspace iter1 iter2 c st).global.email = st.global.email
    ∧ (selectDefaultWorkspace iter1 iter2 c st).tokens = st.tokens
    ∧ (selectDefaultWorkspace iter1 iter2 c st).keyring = st.keyring := by
  unfold selectDefaultWorkspace
  by_cases h0 : GetSelectedWorkspaceID st = ""
  · rw [if_pos h0]
    rcases hf : (iter1 c).find? (fun p => p.2.type == "personal") with _ | p <;>
      rcases hh : (iter2 c).head? with _ | q <;>
        refine ⟨?_, ?_, ?_, ?_⟩ <;>
          simp only [hf, hh] <;>
            split_ifs <;>
              rfl
  · rw [if_neg h0]
    exact ⟨rfl, rfl, rfl, rfl⟩

/-- Behaviour of the default-workspace selection on a fresh session, for any
two map-iteration orders: some cache entry is selected, and when the cache
holds a `"personal"` entry the selected entry is one of those (workspace
identifiers assumed non-empty, else Go would fall through the first loop). -/
theorem selectDefault_spec
    (iter1 iter2 : List (String × WorkspaceCacheEntry) → List (String × WorkspaceCacheEntry))
    (c : List (String × WorkspaceCacheEntry)) (st : SessionState)
    (hperm1 : (iter1 c).Perm c) (hperm2 : (iter2 c).Perm c)
    (h0 : GetSelectedWorkspaceID st = "") (hc : c ≠ [])
    (hids : ∀ p ∈ c, p.1 ≠ "") :
    ∃ p ∈ c, (selectDefaultWorkspace iter1 iter2 c st).global.selectedWorkspaceID = p.1
      ∧ ((∃ q ∈ c, q.2.type = "personal") → p.2.type = "personal") := by
  unfold selectDefaultWorkspace
  rw [if_pos h0]
  rcases hf : (iter1 c).find? (fun p => p.2.type == "personal") with _ | p
  · have hnp : ¬ ∃ q ∈ c, q.2.type = "personal" := by
      rintro ⟨q, hq, hqt⟩
      have hq1 : q ∈ iter1 c := hperm1.mem_iff.mpr hq
      have hsome : ((iter1 c).find? (fun p => p.2.type == "personal")).isSome := by
        rw [List.find?_isSome]
        exact ⟨q, hq1, by simp [hqt]⟩
      rw [hf] at hsome
      exact Bool.noConfusion hsome
    simp only [hf]
    rw [if_pos h0]
    rcases hh : (iter2 c).head? with _ | q
    · exact absurd ((List.head?_eq_none_iff.mp hh ▸ hperm2).symm.eq_nil) hc
    · have hq2 : q ∈ iter2 c := List.mem_of_mem_head? (by simp [hh])
      exact ⟨q, hperm2.mem_iff.mp hq2, rfl, fun hex => absurd hex hnp⟩
  · have hp1 : p ∈ iter1 c := List.mem_of_find?_eq_some hf
    have hbeq := @List.find?_some _ (fun q => q.2.type == "personal") p (iter1 c) hf
    have hptype : p.2.type = "personal" := eq_of_beq hbeq
    have hpc : p ∈ c := hperm1.mem_iff.mp hp1
    simp only [hf]
    rw [if_neg (show ¬(GetSelectedWorkspaceID (SetSelectedWorkspaceID p.1 st) = "")
      from hids p hpc)]
    exact ⟨p, hpc, rfl, fun _ => hptype⟩

/-- Lemma: `DeleteKeypair` always reports success, and afterwards neither keyring
entry of the given email resolves. -/
theorem DeleteKeypair_clears (email : String) (kr : KeyringState) :
    ∃ kr', DeleteKeypair email kr = .ok kr'
      ∧ lookupA kr'.entries (email ++ "_private_key") = none
      ∧ lookupA kr'.entries (email ++ "_public_key") = none := by
  have hnames : email ++ "_private_key" ≠ email ++ "_public_key" := by
    intro h
    have hdata := congrArg String.data h
    rw [String.data_append, String.data_append] at hdata
    have htail := List.append_cancel_left hdata
    exact absurd (String.ext htail) (by decide)
  unfold DeleteKeypair gokeyringDelete
  rcases hpriv : lookupA kr.entries (email ++ "_private_key") with _ | v1
  · rcases hpub : lookupA kr.entries (email ++ "_public_key") with _ | v2
    · exact ⟨kr, by simp [hpriv, hpub], hpriv, hpub⟩
    · refine ⟨⟨removeA kr.entries (email ++ "_public_key")⟩, by simp [hpriv, hpub], ?_, ?_⟩
      · rw [lookupA_removeA_ne _ _ _ hnames]
        exact hpriv
      · exact lookupA_removeA_self _ _
  · rcases hpub : lookupA (removeA kr.entries (email ++ "_private_key"))
        (email ++ "_public_key") with _ | v2
    · exact ⟨⟨removeA kr.entries (email ++ "_private_key")⟩, by simp [hpriv, hpub],
        lookupA_removeA_self _ _, hpub⟩
    · refine ⟨⟨removeA (removeA kr.entries (email ++ "_private_key"))
        (email ++ "_public_key")⟩, by simp [hpriv, hpub], ?_, ?_⟩
      · rw [lookupA_removeA_ne _ _ _ hnames]
        exact lookupA_removeA_self _ _
      · exact lookupA_removeA_self _ _

/-- Evaluation of `PerformLogin` on the signup path (keypair provided):
the password is consumed only by the abstracted transport call. -/
theorem PerformLogin_some_eval (email password : String) (priv pub : List Nat)
    (resp : LoginResponse)
    (iter1 iter2 : List (String × WorkspaceCacheEntry) → List (String × WorkspaceCacheEntry))
    (st : SessionState) :
    PerformLogin email password (some (priv, pub)) resp iter1 iter2 st
      = (let st3 := StoreKeypair email priv pub
            (StoreTokens (coalesce resp.accessToken resp.data.access)
              (coalesce resp.refreshToken resp.data.refresh)
              (coalesce resp.expiresAt resp.data.expiresAt) (SetEmail email st))
         let cache := buildWorkspaceCache priv pub resp.data.workspaces []
         if cache.length > 0 then
           .ok (selectDefaultWorkspace iter1 iter2 cache (StoreWorkspaceCache cache st3))
         else .ok st3) := rfl

/-! ### Claim theorems: session bootstrap (C5, C6, C7) and logout (C9) -/

/-- Claim C5 counterexample.  A login response with `N = 1` workspace entries of
which `M = 0` unwrap (the blob fails base64 decoding), starting from a prior
session with one stale cached entry: `PerformLogin` succeeds but the stored
cache afterwards still holds the stale entry, not exactly `M = 0` entries —
the guard `len(workspaceCache) > 0` prevents the cache from being rebuilt. -/
theorem login_zero_valid_keeps_stale_cache :
    workspacesOf (PerformLogin ("u@x") ("pw")
        (some (List.replicate 32 0, List.replicate 32 0)) respBadOnly iterId iterId stStale)
      = some [("stale", ⟨"Old", "k", "member", "team"⟩)]
    ∧ ([("stale", (⟨"Old", "k", "member", "team"⟩ : WorkspaceCacheEntry))]
        : List (String × WorkspaceCacheEntry)) ≠ [] :=
  ⟨rfl, by decide⟩

/-- Claim C5 (amended).  For a login under a resolved identity keypair whose
response has pairwise-distinct workspace identifiers and at least one valid
sealed blob, `PerformLogin` succeeds and the stored cache afterwards is
exactly the valid entries, one per valid workspace in response order
(nothing stale survives); the identifiers of that cache are exactly the
identifiers of the workspaces whose blobs decode and unwrap.  (When no blob
is valid the code leaves the previous cache in place — see the
counterexample.) -/
theorem login_caches_exactly_valid_workspaces
    (email password : String) (priv pub : List Nat) (resp : LoginResponse)
    (iter1 iter2 : List (String × WorkspaceCacheEntry) → List (String × WorkspaceCacheEntry))
    (st : SessionState)
    (hnodup : (resp.data.workspaces.map LoginWorkspace.id).Nodup)
    (hM : expectedCache priv pub resp.data.workspaces ≠ []) :
    workspacesOf (PerformLogin email password (some (priv, pub)) resp iter1 iter2 st)
        = some (expectedCache priv pub resp.data.workspaces)
    ∧ (expectedCache priv pub resp.data.workspaces).map Prod.fst
        = (resp.data.workspaces.filter (wsBlobValid priv pub)).map LoginWorkspace.id := by
  have hcache : buildWorkspaceCache priv pub resp.data.workspaces []
      = expectedCache priv pub resp.data.workspaces := by
    have h := buildWorkspaceCache_eq priv pub resp.data.workspaces []
      (fun _ _ => rfl) hnodup
    simpa using h
  constructor
  · rw [PerformLogin_some_eval]
    simp only [hcache]
    rw [if_pos (List.length_pos.mpr hM)]
    simp only [workspacesOf]
    rw [(selectDefault_preserves iter1 iter2 _ _).1]
    rfl
  · exact expectedCache_map_fst priv pub resp.data.workspaces

/-- Closed witness for `login_caches_exactly_valid_workspaces`: one valid and
one corrupted workspace entry (`N = 2`, `M = 1`). -/
theorem login_caches_exactly_valid_workspaces_witness :
    workspacesOf (PerformLogin ("u@x") ("pw") (some (privW, pubW)) respValidAndBad
          iterId iterId stEmpty)
        = some (expectedCache privW pubW respValidAndBad.data.workspaces)
    ∧ (expectedCache privW pubW respValidAndBad.data.workspaces).map Prod.fst
        = (respValidAndBad.data.workspaces.filter (wsBlobValid privW pubW)).map
            LoginWorkspace.id :=
  login_caches_exactly_valid_workspaces ("u@x") ("pw") privW pubW respValidAndBad
    iterId iterId stEmpty (by decide) (by decide)

/-- Claim C6 counterexample.  The same login response, run under two map
iteration orders that are both permutations of the cache (Go's map order is
unspecified), selects two different workspaces: the fallback pick is not
deterministic, refuting "the same login response always yields the same
selection".  The response has two valid entries `"a"`, `"b"`, neither of
type `"personal"`, and no workspace was previously selected. -/
theorem login_selection_order_dependent :
    selectedOf (PerformLogin ("u@x") ("pw") (some (privW, pubW)) respTwoTeam
          iterId iterId stEmpty) = some ("a")
    ∧ selectedOf (PerformLogin ("u@x") ("pw") (some (privW, pubW)) respTwoTeam
          iterRev iterRev stEmpty) = some ("b")
    ∧ ("a" : String) ≠ ("b" : String)
    ∧ (iterRev (buildWorkspaceCache privW pubW respTwoTeam.data.workspaces [])).Perm
        (buildWorkspaceCache privW pubW respTwoTeam.data.workspaces []) :=
  ⟨rfl, rfl, by decide, by decide⟩

/-- Claim C6 (amended).  After a successful login (resolved keypair, distinct
non-empty workspace identifiers): a workspace selected in a prior session is
left unchanged; otherwise, when the fresh cache is non-empty, some cache
entry is selected, and it is a `"personal"`-typed one whenever the cache
contains any — but which entry (among several personal ones, or in the
fallback) depends on the map iteration orders, which Go leaves unspecified,
so the pick is not deterministic (see the counterexample). -/
theorem login_selection_policy
    (email password : String) (priv pub : List Nat) (resp : LoginResponse)
    (iter1 iter2 : List (String × WorkspaceCacheEntry) → List (String × WorkspaceCacheEntry))
    (st : SessionState)
    (hperm1 : ∀ l, (iter1 l).Perm l) (hperm2 : ∀ l, (iter2 l).Perm l)
    (hnodup : (resp.data.workspaces.map LoginWorkspace.id).Nodup)
    (hids : ∀ ws ∈ resp.data.workspaces, ws.id ≠ "") :
    (GetSelectedWorkspaceID st ≠ "" →
        selectedOf (PerformLogin email password (some (priv, pub)) resp iter1 iter2 st)
          = some (GetSelectedWorkspaceID st))
    ∧ (GetSelectedWorkspaceID st = "" →
        buildWorkspaceCache priv pub resp.data.workspaces [] ≠ [] →
        ∃ p ∈ buildWorkspaceCache priv pub resp.data.workspaces [],
          selectedOf (PerformLogin email password (some (priv, pub)) resp iter1 iter2 st)
            = some p.1
          ∧ ((∃ q ∈ buildWorkspaceCache priv pub resp.data.workspaces [],
                q.2.type = "personal") → p.2.type = "personal")) := by
  have hcache : buildWorkspaceCache priv pub resp.data.workspaces []
      = expectedCache priv pub resp.data.workspaces := by
    have h := buildWorkspaceCache_eq priv pub resp.data.workspaces []
      (fun _ _ => rfl) hnodup
    simpa using h
  constructor
  · intro hprior
    rw [PerformLogin_some_eval]
    by_cases hlen : (buildWorkspaceCache priv pub resp.data.workspaces []).length > 0
    · rw [if_pos hlen]
      simp only [selectedOf]
      rw [selectDefault_of_prior iter1 iter2
        (buildWorkspaceCache priv pub resp.data.workspaces [])
        (StoreWorkspaceCache (buildWorkspaceCache priv pub resp.data.workspaces [])
          (StoreKeypair email priv pub
            (StoreTokens (coalesce resp.accessToken resp.data.access)
              (coalesce resp.refreshToken resp.data.refresh)
              (coalesce resp.expiresAt resp.data.expiresAt) (SetEmail email st))))
        hprior]
      rfl
    · rw [if_neg hlen]
      rfl
  · intro hprior hne
    rw [PerformLogin_some_eval]
    have hlen : (buildWorkspaceCache priv pub resp.data.workspaces []).length > 0 :=
      List.length_pos.mpr hne
    simp only [if_pos hlen]
    have hcids : ∀ p ∈ buildWorkspaceCache priv pub resp.data.workspaces [], p.1 ≠ "" := by
      intro p hp
      rw [hcache] at hp
      rcases mem_expectedCache priv pub resp.data.workspaces p hp with ⟨ws, hws, hid⟩
      rw [hid]
      exact hids ws hws
    rcases selectDefault_spec iter1 iter2
        (buildWorkspaceCache priv pub resp.data.workspaces [])
        (StoreWorkspaceCache (buildWorkspaceCache priv pub resp.data.workspaces [])
          (StoreKeypair email priv pub
            (StoreTokens (coalesce resp.accessToken resp.data.access)
              (coalesce resp.refreshToken resp.data.refresh)
              (coalesce resp.expiresAt resp.data.expiresAt) (SetEmail email st))))
        (hperm1 _) (hperm2 _) hprior hne hcids with ⟨p, hpc, hsel, hpers⟩
    exact ⟨p, hpc, congrArg some hsel, hpers⟩

/-- Closed witness for `login_selection_policy` on a fresh session whose
response holds a `"team"` and a `"personal"` workspace: a cache entry is
selected, and it is the personal one whenever any personal entry exists. -/
theorem login_selection_policy_witness :
    ∃ p ∈ buildWorkspaceCache privW pubW respPersonal.data.workspaces [],
      selectedOf (PerformLogin ("u@x") ("pw") (some (privW, pubW)) respPersonal
          iterId iterId stEmpty)
        = some p.1
      ∧ ((∃ q ∈ buildWorkspaceCache privW pubW respPersonal.data.workspaces [],
            q.2.type = "personal") → p.2.type = "personal") :=
  (login_selection_policy ("u@x") ("pw") privW pubW respPersonal iterId iterId stEmpty
    (fun l => List.Perm.refl l) (fun l => List.Perm.refl l) (by decide) (by decide)).2
    (by decide) (by decide)

/-- Claim C7 counterexample.  After a successful `PerformLogin`, the user's
email — one of the two credentials — is present in the persisted global
configuration, refuting "neither value is present in any persisted state". -/
theorem login_persists_email :
    emailOf (PerformLogin ("user@example.com") ("pw")
        (some (List.replicate 32 0, List.replicate 32 0)) respNoWs iterId iterId stEmpty)
      = some ("user@example.com")
    ∧ ("user@example.com" : String) ≠ "" :=
  ⟨rfl, by decide⟩

/-- Claim C7 (amended).  The password is never persisted: with the identity
keypair resolved, the entire outcome of `PerformLogin` — including every
persisted field — is identical for any two passwords; the password reaches
only the abstracted transport call.  (The email, by contrast, *is* written
to the durable global configuration by `config.SetEmail` — see the
counterexample.) -/
theorem login_password_not_persisted (email password password' : String)
    (kp : List Nat × List Nat) (resp : LoginResponse)
    (iter1 iter2 : List (String × WorkspaceCacheEntry) → List (String × WorkspaceCacheEntry))
    (st : SessionState) :
    PerformLogin email password (some kp) resp iter1 iter2 st
      = PerformLogin email password' (some kp) resp iter1 iter2 st := rfl

/-- Claim C9 (confirmed).  Logout always locally succeeds from every starting
state: the session cache is fully reset (email, selected workspace,
workspace cache, tokens), `DeleteKeypair` always reports success (keystore
deletion errors swallowed), and when an email was stored neither of its
keyring entries survives. -/
theorem logout_always_succeeds (st : SessionState) :
    emailOf (Logout st) = some ""
    ∧ selectedOf (Logout st) = some ""
    ∧ workspacesOf (Logout st) = some []
    ∧ tokensOf (Logout st) = some emptyTokenConfig
    ∧ (∀ email kr, (DeleteKeypair email kr).isOk = true)
    ∧ (GetEmail st ≠ "" →
        keyringLookup (Logout st) (GetEmail st ++ "_private_key") = none
        ∧ keyringLookup (Logout st) (GetEmail st ++ "_public_key") = none) := by
  refine ⟨rfl, rfl, rfl, rfl, fun email kr => rfl, fun hne => ?_⟩
  rcases DeleteKeypair_clears (GetEmail st) st.keyring with ⟨kr', hdel, hpriv, hpub⟩
  unfold keyringLookup Logout ClearSession
  simp only [if_pos hne, hdel]
  exact ⟨hpriv, hpub⟩

/-- Closed witness for `logout_always_succeeds` at a fully populated state. -/
theorem logout_always_succeeds_witness :
    emailOf (Logout stLoggedIn) = some ""
    ∧ keyringLookup (Logout stLoggedIn) (GetEmail stLoggedIn ++ "_private_key") = none
    ∧ keyringLookup (Logout stLoggedIn) (GetEmail stLoggedIn ++ "_public_key") = none :=
  ⟨(logout_always_succeeds stLoggedIn).1,
   ((logout_always_succeeds stLoggedIn).2.2.2.2.2 (by decide)).1,
   ((logout_always_succeeds stLoggedIn).2.2.2.2.2 (by decide)).2⟩

/-! ### Claim theorems: failure-message shape (C8) and salt leniency (C10) -/

/-- Claim C8 counterexample.  Two distinct failing inputs to `DecryptSecret`
produce different error messages: undecodable ciphertext input is reported
as a decode failure, while a decodable input whose tag does not verify is
reported as a decryption failure — the messages reveal which part of the
input was wrong. -/
theorem decrypt_error_messages_distinguishable :
    DecryptSecret ("!") (b64Encode (List.replicate 12 0)) (List.replicate 32 0)
        = .error errDecodeCiphertext
    ∧ DecryptSecret (b64Encode []) (b64Encode (List.replicate 12 0)) (List.replicate 32 0)
        = .error errDecrypt
    ∧ errDecodeCiphertext ≠ errDecrypt :=
  ⟨rfl, rfl, by decide⟩

/-- Claim C8 (amended).  Every failing decryption in `DecryptPrivateKey`
returns an error and never plaintext, and so does `DecryptSecret` whenever
its supplied nonce base64-decodes to the 12 bytes GCM requires; the error
is drawn from a fixed, stage-identifying catalog (decode failure, salt
failure, cipher construction, length check, tag verification) — so failing
inputs are classified, but the messages do distinguish the failing stage
rather than being indistinguishable from "malformed input" (see the
counterexample).  The 12-byte nonce restriction is forced by the code
itself: `DecryptSecret` never checks the decoded nonce's length and Go's
`gcm.Open` panics — returns no error at all — on any other length, so on
those inputs the program has no error behaviour to classify and the model
(whose `gcmOpen` is faithful only for 12-byte nonces) must not be quoted. -/
theorem decrypt_failures_error_catalog (ciphertextB64 nonceB64 : String) (workspaceKey : List Nat)
    (encryptedB64 password saltHex : String)
    (hnonce : ∀ nonce, b64Decode nonceB64 = some nonce → nonce.length = NonceSize) :
    ((DecryptSecret ciphertextB64 nonceB64 workspaceKey).isOk = true
      ∨ ∃ m, DecryptSecret ciphertextB64 nonceB64 workspaceKey = .error m
          ∧ (m = errDecodeCiphertext ∨ m = errDecodeNonce ∨ m = errCreateCipher
              ∨ m = errDecrypt))
    ∧ ((DecryptPrivateKey encryptedB64 password saltHex).isOk = true
      ∨ ∃ m, DecryptPrivateKey encryptedB64 password saltHex = .error m
          ∧ (m = errDecodePrivateKey ∨ m = errInvalidSaltHex ∨ m = errCreateCipher
              ∨ m = errCiphertextTooShort ∨ m = errDecryptPrivateKey)) := by
  constructor
  · unfold DecryptSecret
    rcases b64Decode ciphertextB64 with _ | ct
    · exact Or.inr ⟨_, rfl, Or.inl rfl⟩
    · rcases b64Decode nonceB64 with _ | nonce
      · exact Or.inr ⟨_, rfl, Or.inr (Or.inl rfl)⟩
      · dsimp only
        by_cases haes : aesKeyLenOK workspaceKey
        · rw [if_pos haes]
          rcases gcmOpen workspaceKey nonce ct with _ | pt
          · exact Or.inr ⟨_, rfl, Or.inr (Or.inr (Or.inr rfl))⟩
          · exact Or.inl rfl
        · rw [if_neg haes]
          exact Or.inr ⟨_, rfl, Or.inr (Or.inr (Or.inl rfl))⟩
  · unfold DecryptPrivateKey DeriveKeyFromPassword
    rcases b64Decode encryptedB64 with _ | ct
    · exact Or.inr ⟨_, rfl, Or.inl rfl⟩
    · rcases hexDecode saltHex with _ | salt
      · exact Or.inr ⟨_, rfl, Or.inr (Or.inl rfl)⟩
      · dsimp only
        by_cases haes : aesKeyLenOK (argon2IDKey password salt)
        · rw [if_pos haes]
          by_cases hlen : ct.length < NonceSize
          · rw [if_pos hlen]
            exact Or.inr ⟨_, rfl, Or.inr (Or.inr (Or.inr (Or.inl rfl)))⟩
          · rw [if_neg hlen]
            rcases gcmOpen (argon2IDKey password salt) (ct.take NonceSize) (ct.drop NonceSize)
                with _ | k
            · exact Or.inr ⟨_, rfl, Or.inr (Or.inr (Or.inr (Or.inr rfl)))⟩
            · exact Or.inl rfl
        · rw [if_neg haes]
          exact Or.inr ⟨_, rfl, Or.inr (Or.inr (Or.inl rfl))⟩

/-- Closed witness for `decrypt_failures_error_catalog`: a nonce input that
decodes to 12 bytes (discharging the panic-freedom hypothesis) together
with undecodable ciphertext and salt inputs. -/
theorem decrypt_failures_error_catalog_witness :
    ((DecryptSecret ("!") (b64Encode (List.replicate 12 1)) []).isOk = true
      ∨ ∃ m, DecryptSecret ("!") (b64Encode (List.replicate 12 1)) [] = .error m
          ∧ (m = errDecodeCiphertext ∨ m = errDecodeNonce ∨ m = errCreateCipher
              ∨ m = errDecrypt))
    ∧ ((DecryptPrivateKey ("!") ("p") ("zz")).isOk = true
      ∨ ∃ m, DecryptPrivateKey ("!") ("p") ("zz") = .error m
          ∧ (m = errDecodePrivateKey ∨ m = errInvalidSaltHex ∨ m = errCreateCipher
              ∨ m = errCiphertextTooShort ∨ m = errDecryptPrivateKey)) :=
  decrypt_failures_error_catalog ("!") (b64Encode (List.replicate 12 1)) [] ("!") ("p") ("zz")
    (fun nonce h => by
      rw [b64Decode_b64Encode] at h
      rw [← Option.some.inj h]
      rfl)

theorem fromHexChar_isSome_iff (c : Char) : (fromHexChar c).isSome = true ↔ isHexDigit c := by
  unfold fromHexChar isHexDigit
  split_ifs with h1 h2 h3 <;> simp_all

theorem hexDecodeChars_isSome_iff :
    ∀ cs : List Char, (hexDecodeChars cs).isSome = true
      ↔ (cs.length % 2 = 0 ∧ ∀ c ∈ cs, isHexDigit c)
  | [] => by simp [hexDecodeChars]
  | [c] => by simp [hexDecodeChars]
  | c1 :: c2 :: rest => by
    have ih := hexDecodeChars_isSome_iff rest
    have h1 := fromHexChar_isSome_iff c1
    have h2 := fromHexChar_isSome_iff c2
    have hmod : (rest.length + 1 + 1) % 2 = rest.length % 2 := by omega
    unfold hexDecodeChars
    rcases hh1 : fromHexChar c1 with _ | v1 <;>
      rcases hh2 : fromHexChar c2 with _ | v2 <;>
        rcases hh3 : hexDecodeChars rest with _ | bs <;>
          rw [hh1] at h1 <;> rw [hh2] at h2 <;> rw [hh3] at ih <;>
            simp_all [List.forall_mem_cons]

/-- Claim C10 (confirmed).  `DeriveKeyFromPassword` does not enforce the
32-byte salt length: it errors exactly when the salt string is not valid
hexadecimal (an even number of hex digits — the empty string and any other
even length included), and on every valid hex salt returns a 32-byte key. -/
theorem derive_key_salt_lenient (password saltHex : String) :
    ((DeriveKeyFromPassword password saltHex).isOk = true
        ↔ (saltHex.data.length % 2 = 0 ∧ ∀ c ∈ saltHex.data, isHexDigit c))
    ∧ (∀ key, DeriveKeyFromPassword password saltHex = .ok key → key.length = 32) := by
  constructor
  · rw [← hexDecodeChars_isSome_iff saltHex.data]
    unfold DeriveKeyFromPassword hexDecode
    rcases hexDecodeChars saltHex.data with _ | salt <;> simp [Except.isOk, Except.toBool]
  · intro key hkey
    unfold DeriveKeyFromPassword hexDecode at hkey
    rcases hsalt : hexDecodeChars saltHex.data with _ | salt <;> rw [hsalt] at hkey
    · exact Except.noConfusion hkey
    · rw [← Except.ok.inj hkey]
      exact argon2IDKey_length password salt

/-- Closed witness for `derive_key_salt_lenient` at the 2-hex-digit (1-byte,
not 32-byte) salt `"0f"`: derivation succeeds and yields a 32-byte key. -/
theorem derive_key_salt_lenient_witness :
    (argon2IDKey ("pw") [15]).length = 32
    ∧ ((DeriveKeyFromPassword ("pw") ("0f")).isOk = true
        ↔ ((("0f" : String)).data.length % 2 = 0
            ∧ ∀ c ∈ (("0f" : String)).data, isHexDigit c)) :=
  ⟨(derive_key_salt_lenient ("pw") ("0f")).2 (argon2IDKey ("pw") [15]) (by rfl),
   (derive_key_salt_lenient ("pw") ("0f")).1⟩

end AgentSecrets
